import Mathlib

/-!
Verification of the batch-processing and quota pipeline of `deleteEmails.js`
(Gmail email deletion utility).

The JavaScript source is shallowly embedded: timestamps are `Nat`
milliseconds, the process-wide mutable `QUOTA_METRICS` object becomes an
explicitly threaded `QuotaState`, remote calls become outcome streams, and
the pagination loop becomes a fuelled recursion over a stream of pages that
also records the observable events (fetches, archives, bulk deletes,
pauses) in order.
-/

/-- State of the `QUOTA_METRICS` global: daily counter, per-minute counter,
and the start of the current rolling minute window (ms timestamp). -/
structure QuotaState where
  requestsPerDay : Nat
  requestsPerMin : Nat
  lastMinuteReset : Nat
deriving DecidableEq, Repr

/-- Embedding of `updateQuotaMetrics()`: if at least 60 000 ms have elapsed
since `lastMinuteReset`, zero the per-minute counter and move the window
start to `now`; then increment both counters. `now - lastMinuteReset` is
truncated `Nat` subtraction, which agrees with the JS comparison
`now - lastMinuteReset >= 60000` whenever `now ≥ lastMinuteReset`, and both
evaluate to false when the clock reads earlier than the window start. -/
def updateQuotaMetrics (now : Nat) (s : QuotaState) : QuotaState :=
  let s1 :=
    if 60000 ≤ now - s.lastMinuteReset then
      { s with requestsPerMin := 0, lastMinuteReset := now }
    else s
  { s1 with
      requestsPerDay := s1.requestsPerDay + 1,
      requestsPerMin := s1.requestsPerMin + 1 }

/-- Embedding of `canMakeRequest()`: update the metrics, then report whether
both counters are strictly below their ceilings. Returns the boolean
together with the mutated state. -/
def canMakeRequest (now : Nat) (s : QuotaState) : Bool × QuotaState :=
  let s1 := updateQuotaMetrics now s
  (decide (s1.requestsPerDay < 1000000) && decide (s1.requestsPerMin < 250), s1)

/-- A sequence of `canMakeRequest` calls at the given timestamps, returning
the list of boolean answers and the final state. -/
def runCalls : List Nat → QuotaState → List Bool × QuotaState
  | [], s => ([], s)
  | t :: ts, s =>
    let r := canMakeRequest t s
    let rest := runCalls ts r.2
    (r.1 :: rest.1, rest.2)

theorem runCalls_append (ts us : List Nat) (s : QuotaState) :
    runCalls (ts ++ us) s =
      ((runCalls ts s).1 ++ (runCalls us (runCalls ts s).2).1,
        (runCalls us (runCalls ts s).2).2) := by
  induction ts generalizing s with
  | nil => simp [runCalls]
  | cons t ts ih => simp [runCalls, ih]

/-- While every call in `ts` happens strictly before the window that started
at `s.lastMinuteReset` rolls over, no reset fires: both counters just grow
by the number of calls and the window start is unchanged. -/
theorem runCalls_within_window (ts : List Nat) (s : QuotaState)
    (h : ∀ t ∈ ts, t < s.lastMinuteReset + 60000) :
    (runCalls ts s).2 =
      { requestsPerDay := s.requestsPerDay + ts.length,
        requestsPerMin := s.requestsPerMin + ts.length,
        lastMinuteReset := s.lastMinuteReset } := by
  induction ts generalizing s with
  | nil => simp [runCalls]
  | cons t ts ih =>
    have ht : t < s.lastMinuteReset + 60000 := h t (by simp)
    have hno : ¬ 60000 ≤ t - s.lastMinuteReset := by omega
    simp only [runCalls]
    rw [ih]
    · simp [canMakeRequest, updateQuotaMetrics, hno]
      omega
    · intro u hu
      have := h u (by simp [hu])
      simpa [canMakeRequest, updateQuotaMetrics, hno] using this

/-- C4: starting from a fresh window opened at `t0` (both counters zero),
after 250 calls inside the window — and possibly more (`extra`) — any
further call still inside the window returns `false`, while the first call
at or after `t0 + 60000` rolls the window over: the per-minute counter
resets (to 1, counting that call), the window start moves to the call time,
and the call returns `true` again (the daily ceiling not being reached). -/
theorem quota_250_blocks_until_rollover (t0 : Nat) (ts extra : List Nat)
    (t' t'' : Nat)
    (hin : ∀ t ∈ ts ++ extra, t < t0 + 60000)
    (hlen : ts.length = 250)
    (ht' : t' < t0 + 60000)
    (ht'' : t0 + 60000 ≤ t'')
    (hday : 252 + extra.length < 1000000) :
    (canMakeRequest t' (runCalls (ts ++ extra) ⟨0, 0, t0⟩).2).1 = false ∧
    (canMakeRequest t'' (runCalls (ts ++ extra) ⟨0, 0, t0⟩).2).1 = true ∧
    (canMakeRequest t'' (runCalls (ts ++ extra) ⟨0, 0, t0⟩).2).2.requestsPerMin = 1 ∧
    (canMakeRequest t'' (runCalls (ts ++ extra) ⟨0, 0, t0⟩).2).2.lastMinuteReset = t'' := by
  have hs := runCalls_within_window (ts ++ extra) ⟨0, 0, t0⟩ (by simpa using hin)
  rw [hs]
  have hlen2 : (ts ++ extra).length = 250 + extra.length := by
    simp [hlen]
  rw [hlen2]
  have hno : ¬ 60000 ≤ t' - t0 := by omega
  have hyes : 60000 ≤ t'' - t0 := by omega
  refine ⟨?_, ?_, ?_, ?_⟩ <;>
    simp [canMakeRequest, updateQuotaMetrics, hno, hyes] <;> omega

/-- Witness for C4 at a concrete fresh window: 250 calls at time 0, a 251st
in-window probe at time 59999 is refused, and a probe at time 60000 is
permitted again with the per-minute counter reset. -/
theorem quota_250_blocks_until_rollover_witness :
    (canMakeRequest 59999 (runCalls (List.replicate 250 0 ++ []) ⟨0, 0, 0⟩).2).1 = false ∧
    (canMakeRequest 60000 (runCalls (List.replicate 250 0 ++ []) ⟨0, 0, 0⟩).2).1 = true ∧
    (canMakeRequest 60000 (runCalls (List.replicate 250 0 ++ []) ⟨0, 0, 0⟩).2).2.requestsPerMin = 1 ∧
    (canMakeRequest 60000 (runCalls (List.replicate 250 0 ++ []) ⟨0, 0, 0⟩).2).2.lastMinuteReset = 60000 :=
  quota_250_blocks_until_rollover 0 (List.replicate 250 0) [] 59999 60000
    (by
      intro t ht
      rw [List.append_nil] at ht
      rw [List.eq_of_mem_replicate ht]
      omega)
    (List.length_replicate 250 0) (by omega) (by omega) (by simp)

/-- C8 counterexample: a quota check that lands on a window rollover does
NOT increment the per-minute counter by exactly one — with the counter at 5
and 60 s elapsed, the call leaves it at 1, not 6. (The daily counter does
go from 0 to 1.) -/
theorem quota_increment_not_always_one :
    (canMakeRequest 60000 ⟨0, 5, 0⟩).2.requestsPerMin = 1 ∧
    (canMakeRequest 60000 ⟨0, 5, 0⟩).2.requestsPerMin ≠
      (QuotaState.mk 0 5 0).requestsPerMin + 1 := by
  constructor <;> decide

/-- C8 amended: every quota check increments the daily counter by exactly
one, unconditionally; the per-minute counter is incremented by exactly one
when less than 60 s have elapsed since the window start, and otherwise is
first reset (so it ends at 1, with the window start moved to `now`); the
check returns `true` iff, after the increment, the daily counter is below
1 000 000 and the per-minute counter is below 250. The call is a total
function whose only effect is this counter and window-start mutation. -/
theorem quota_check_increment_and_threshold (now : Nat) (s : QuotaState) :
    (canMakeRequest now s).2.requestsPerDay = s.requestsPerDay + 1 ∧
    (now - s.lastMinuteReset < 60000 →
      (canMakeRequest now s).2.requestsPerMin = s.requestsPerMin + 1 ∧
      (canMakeRequest now s).2.lastMinuteReset = s.lastMinuteReset) ∧
    (60000 ≤ now - s.lastMinuteReset →
      (canMakeRequest now s).2.requestsPerMin = 1 ∧
      (canMakeRequest now s).2.lastMinuteReset = now) ∧
    ((canMakeRequest now s).1 = true ↔
      (canMakeRequest now s).2.requestsPerDay < 1000000 ∧
      (canMakeRequest now s).2.requestsPerMin < 250) := by
  by_cases h : 60000 ≤ now - s.lastMinuteReset <;>
    simp [canMakeRequest, updateQuotaMetrics, h]

/-- Witness for C8 amended at a concrete non-rollover call and threshold. -/
theorem quota_check_increment_and_threshold_witness :
    (canMakeRequest 30000 ⟨7, 3, 0⟩).2.requestsPerDay = 7 + 1 ∧
    (canMakeRequest 30000 ⟨7, 3, 0⟩).2.requestsPerMin = 3 + 1 ∧
    (canMakeRequest 30000 ⟨7, 3, 0⟩).1 = true := by
  have h := quota_check_increment_and_threshold 30000 ⟨7, 3, 0⟩
  refine ⟨h.1, (h.2.1 (by omega)).1, ?_⟩
  rw [h.2.2.2]
  decide

/-- C10: the daily counter is never reset — any sequence of quota checks
adds exactly its length to `requestsPerDay` — and once 1 000 000 calls have
been counted, every subsequent check returns `false` (and the counter stays
at or above the ceiling, so this persists for the rest of the run). -/
theorem quota_daily_never_resets (s : QuotaState) (ts : List Nat) (now : Nat)
    (h : 1000000 ≤ s.requestsPerDay) :
    (runCalls ts s).2.requestsPerDay = s.requestsPerDay + ts.length ∧
    (canMakeRequest now s).1 = false ∧
    1000000 ≤ (canMakeRequest now s).2.requestsPerDay ∧
    ∀ b ∈ (runCalls ts s).1, b = false := by
  refine ⟨?_, ?_, ?_, ?_⟩
  · clear h
    induction ts generalizing s with
    | nil => simp [runCalls]
    | cons t ts ih =>
      simp only [runCalls, List.length_cons]
      rw [ih]
      by_cases hr : 60000 ≤ t - s.lastMinuteReset <;>
        simp [canMakeRequest, updateQuotaMetrics, hr] <;> omega
  · by_cases hr : 60000 ≤ now - s.lastMinuteReset <;>
      simp [canMakeRequest, updateQuotaMetrics, hr] <;> omega
  · by_cases hr : 60000 ≤ now - s.lastMinuteReset <;>
      simp [canMakeRequest, updateQuotaMetrics, hr] <;> omega
  · induction ts generalizing s with
    | nil => simp [runCalls]
    | cons t ts ih =>
      simp only [runCalls, List.mem_cons]
      rintro b (rfl | hb)
      · by_cases hr : 60000 ≤ t - s.lastMinuteReset <;>
          simp [canMakeRequest, updateQuotaMetrics, hr] <;> omega
      · refine ih _ ?_ b hb
        by_cases hr : 60000 ≤ t - s.lastMinuteReset <;>
          simp [canMakeRequest, updateQuotaMetrics, hr] <;> omega

/-- Witness for C10: from a state with the daily ceiling reached, a
two-call run adds two to the daily counter and both answers are refusals. -/
theorem quota_daily_never_resets_witness :
    (runCalls [5, 10] ⟨1000000, 0, 0⟩).2.requestsPerDay = 1000000 + 2 ∧
    (canMakeRequest 5 ⟨1000000, 0, 0⟩).1 = false ∧
    ∀ b ∈ (runCalls [5, 10] ⟨1000000, 0, 0⟩).1, b = false := by
  have h := quota_daily_never_resets ⟨1000000, 0, 0⟩ [5, 10] 5 (by decide)
  exact ⟨h.1, h.2.1, h.2.2.2⟩

/-- Invariant behind C9: running a chronologically ordered sequence of
quota checks from a fresh window started at `t0` (per-minute counter zero,
every call at or after `t0`), the final per-minute counter equals exactly
the number of calls made at or after the final window start; moreover the
final window start is `t0` or one of the call times, and every call
happened strictly before the final window start plus 60 s. -/
theorem runCalls_perMin_window (ts : List Nat) (t0 d : Nat)
    (hsort : ts.Sorted (· ≤ ·)) (h0 : ∀ t ∈ ts, t0 ≤ t) :
    (runCalls ts ⟨d, 0, t0⟩).2.requestsPerMin =
      (ts.filter
        (fun t => decide ((runCalls ts ⟨d, 0, t0⟩).2.lastMinuteReset ≤ t))).length ∧
    (runCalls ts ⟨d, 0, t0⟩).2.lastMinuteReset ∈ t0 :: ts ∧
    ∀ u ∈ ts, u < (runCalls ts ⟨d, 0, t0⟩).2.lastMinuteReset + 60000 := by
  induction ts using List.reverseRecOn with
  | nil => simp [runCalls]
  | append_singleton ts t ih =>
    have hs' : ts.Sorted (· ≤ ·) :=
      ((List.pairwise_append).1 hsort).1
    have hle : ∀ u ∈ ts, u ≤ t := by
      intro u hu
      exact ((List.pairwise_append).1 hsort).2.2 u hu t (by simp)
    have h0' : ∀ u ∈ ts, t0 ≤ u := fun u hu => h0 u (by simp [hu])
    obtain ⟨ihm, ihw, ihb⟩ := ih hs' h0'
    set s1 := (runCalls ts ⟨d, 0, t0⟩).2 with hs1
    have hwt : s1.lastMinuteReset ≤ t := by
      rcases (List.mem_cons.1 ihw) with h | h
      · exact h ▸ h0 t (by simp)
      · exact hle _ h
    rw [runCalls_append]
    simp only [runCalls, ← hs1]
    by_cases hr : 60000 ≤ t - s1.lastMinuteReset
    · have htw : s1.lastMinuteReset + 60000 ≤ t := by omega
      have hfilt : ts.filter (fun u => decide (t ≤ u)) = [] := by
        rw [List.filter_eq_nil_iff]
        intro u hu
        have h1 := ihb u hu
        have h2 := hle u hu
        simp only [decide_eq_true_eq]
        omega
      refine ⟨?_, ?_, ?_⟩
      · simp [canMakeRequest, updateQuotaMetrics, hr, hfilt]
      · simp [canMakeRequest, updateQuotaMetrics, hr]
      · intro u hu
        rcases List.mem_append.1 hu with h | h
        · have := hle u h
          simp [canMakeRequest, updateQuotaMetrics, hr]
          omega
        · simp at h
          simp [canMakeRequest, updateQuotaMetrics, hr, h]
    · refine ⟨?_, ?_, ?_⟩
      · simp [canMakeRequest, updateQuotaMetrics, hr, hwt]
        exact ihm
      · simp [canMakeRequest, updateQuotaMetrics, hr]
        rcases List.mem_cons.1 ihw with h | h
        · exact Or.inl h
        · exact Or.inr (Or.inl h)
      · intro u hu
        rcases List.mem_append.1 hu with h | h
        · have := ihb u h
          simp [canMakeRequest, updateQuotaMetrics, hr]
          omega
        · simp at h
          simp [canMakeRequest, updateQuotaMetrics, hr, h]
          omega

/-- C9: each quota check first resets the per-minute counter to zero and
moves the window start to the current time whenever at least 60 s have
elapsed since the stored window start (so after the unconditional increment
the counter reads 0 + 1), and leaves the window alone otherwise; as a
consequence, over any chronological sequence of calls from a fresh window,
the per-minute counter counts exactly the calls issued at or after the
current window start. -/
theorem quota_minute_window_reset (now : Nat) (s : QuotaState)
    (ts : List Nat) (t0 d : Nat)
    (hsort : ts.Sorted (· ≤ ·)) (h0 : ∀ t ∈ ts, t0 ≤ t) :
    (60000 ≤ now - s.lastMinuteReset →
      updateQuotaMetrics now s =
        ⟨s.requestsPerDay + 1, 0 + 1, now⟩) ∧
    (now - s.lastMinuteReset < 60000 →
      updateQuotaMetrics now s =
        ⟨s.requestsPerDay + 1, s.requestsPerMin + 1, s.lastMinuteReset⟩) ∧
    (runCalls ts ⟨d, 0, t0⟩).2.requestsPerMin =
      (ts.filter
        (fun t => decide ((runCalls ts ⟨d, 0, t0⟩).2.lastMinuteReset ≤ t))).length := by
  refine ⟨?_, ?_, (runCalls_perMin_window ts t0 d hsort h0).1⟩
  · intro h
    simp [updateQuotaMetrics, h]
  · intro h
    have h' : ¬ 60000 ≤ now - s.lastMinuteReset := by omega
    simp [updateQuotaMetrics, h']

/-- Witness for C9 at a concrete trajectory: calls at 0, 59 999 and 60 000.
The third call rolls the window over, so the final per-minute counter (1)
counts only the call at the new window start 60 000. -/
theorem quota_minute_window_reset_witness :
    updateQuotaMetrics 60000 ⟨2, 2, 0⟩ = ⟨2 + 1, 0 + 1, 60000⟩ ∧
    updateQuotaMetrics 59999 ⟨1, 1, 0⟩ = ⟨1 + 1, 1 + 1, 0⟩ ∧
    (runCalls [0, 59999, 60000] ⟨0, 0, 0⟩).2.requestsPerMin =
      ([0, 59999, 60000].filter
        (fun t => decide ((runCalls [0, 59999, 60000] ⟨0, 0, 0⟩).2.lastMinuteReset ≤ t))).length := by
  have h := quota_minute_window_reset 60000 ⟨2, 2, 0⟩ [0, 59999, 60000] 0 0
    (by decide) (by decide)
  have h2 := quota_minute_window_reset 59999 ⟨1, 1, 0⟩ [0, 59999, 60000] 0 0
    (by decide) (by decide)
  exact ⟨h.1 (by decide), h2.2.1 (by decide), h.2.2⟩

/-- Outcome of one invocation of the wrapped operation: a value, or a
thrown error carrying a numeric code (the JS loop tests
`error.code === 429`). -/
inductive Outcome (α : Type) where
  | ok (a : α)
  | err (code : Nat)
deriving DecidableEq

/-- What `executeWithBackoff` hands back to its caller: the operation's
value, a re-thrown non-rate-limit error, or — when the retry loop is
exhausted — the implicit `undefined` of falling off the end of the JS
function. -/
inductive BackoffResult (α : Type) where
  | value (a : α)
  | thrown (code : Nat)
  | undef
deriving DecidableEq

/-- Observable outcome of a run of `executeWithBackoff`: result, final
quota state, the delays awaited (ms, in order) and how many times the
wrapped operation was invoked. -/
structure ExecResult (α : Type) where
  result : BackoffResult α
  state : QuotaState
  waits : List Nat
  invocations : Nat
deriving DecidableEq

/-- The retry loop of `executeWithBackoff`, from attempt index `i` up to
`retries`. `op n` is the outcome of invocation `n` of the wrapped
operation and `clock n` is `Date.now()` at the quota check of iteration
`n`. Each iteration: check `canMakeRequest` (awaiting 60 000 ms when it
refuses — a pacing pause, not an attempt); invoke the operation; return its
value on success; on an error with code 429 await `2^i * 1000` ms and
continue with the next attempt; re-throw any other error. Falling off the
loop returns `undefined`. -/
def backoffLoop (op : Nat → Outcome α) (clock : Nat → Nat)
    (retries i : Nat) (s : QuotaState) : ExecResult α :=
  if _h : i < retries then
    let r := canMakeRequest (clock i) s
    let w0 : List Nat := if r.1 then [] else [60000]
    match op i with
    | .ok a => ⟨.value a, r.2, w0, 1⟩
    | .err c =>
      if c = 429 then
        let rest := backoffLoop op clock retries (i + 1) r.2
        ⟨rest.result, rest.state, w0 ++ [2 ^ i * 1000] ++ rest.waits,
          rest.invocations + 1⟩
      else ⟨.thrown c, r.2, w0, 1⟩
  else ⟨.undef, s, [], 0⟩
termination_by retries - i
decreasing_by omega

/-- Embedding of `executeWithBackoff(operation, retries)`: run the retry
loop from attempt index 0. The JS default for `retries` is 3. -/
def executeWithBackoff (op : Nat → Outcome α) (clock : Nat → Nat)
    (retries : Nat) (s : QuotaState) : ExecResult α :=
  backoffLoop op clock retries 0 s

theorem backoffLoop_all_rate_limited (op : Nat → Outcome α)
    (clock : Nat → Nat) (retries : Nat) :
    ∀ k i s, retries - i = k → (∀ j, i ≤ j → j < retries → op j = .err 429) →
      (backoffLoop op clock retries i s).result = .undef ∧
      (backoffLoop op clock retries i s).invocations = retries - i := by
  intro k
  induction k with
  | zero =>
    intro i s hk _
    rw [backoffLoop]
    have : ¬ i < retries := by omega
    simp [this, hk]
  | succ k ih =>
    intro i s hk hall
    have hi : i < retries := by omega
    have hop : op i = .err 429 := hall i (le_refl i) hi
    rw [backoffLoop]
    simp only [hi, dif_pos, hop]
    have := ih (i + 1) (canMakeRequest (clock i) s).2 (by omega)
      (fun j hj hj2 => hall j (by omega) hj2)
    simp [this.1, this.2]
    omega

/-- C5: when the wrapped operation fails with a rate-limit error (code 429)
on every one of its `retries` attempts, `executeWithBackoff` makes all
`retries` invocations and then falls off the loop, returning `undefined` —
it neither returns a value nor throws, so the caller observes an apparent
success with an empty result. -/
theorem backoff_exhausted_returns_undefined (op : Nat → Outcome α)
    (clock : Nat → Nat) (retries : Nat) (s : QuotaState)
    (h : ∀ i < retries, op i = .err 429) :
    (executeWithBackoff op clock retries s).result = .undef ∧
    (executeWithBackoff op clock retries s).invocations = retries := by
  have := backoffLoop_all_rate_limited op clock retries (retries - 0) 0 s rfl
    (fun j _ hj => h j hj)
  simpa [executeWithBackoff] using this

/-- Witness for C5 at the default `retries = 3` and an always-429
operation. -/
theorem backoff_exhausted_returns_undefined_witness :
    (executeWithBackoff (fun _ => (Outcome.err 429 : Outcome Nat)) (fun _ => 0)
        3 ⟨0, 0, 0⟩).result = .undef ∧
    (executeWithBackoff (fun _ => (Outcome.err 429 : Outcome Nat)) (fun _ => 0)
        3 ⟨0, 0, 0⟩).invocations = 3 :=
  backoff_exhausted_returns_undefined (fun _ => Outcome.err 429) (fun _ => 0)
    3 ⟨0, 0, 0⟩ (fun _ _ => rfl)

theorem canMakeRequest_true_of_headroom (now : Nat) (s : QuotaState)
    (hd : s.requestsPerDay + 1 < 1000000) (hm : s.requestsPerMin + 1 < 250) :
    (canMakeRequest now s).1 = true ∧
    (canMakeRequest now s).2.requestsPerDay = s.requestsPerDay + 1 ∧
    (canMakeRequest now s).2.requestsPerMin ≤ s.requestsPerMin + 1 := by
  by_cases hr : 60000 ≤ now - s.lastMinuteReset <;>
    simp [canMakeRequest, updateQuotaMetrics, hr] <;> omega

theorem backoffLoop_step_rateLimited (op : Nat → Outcome α)
    (clock : Nat → Nat) (retries i : Nat) (s : QuotaState)
    (hi : i < retries) (hop : op i = .err 429)
    (hq : (canMakeRequest (clock i) s).1 = true) :
    backoffLoop op clock retries i s =
      ⟨(backoffLoop op clock retries (i + 1) (canMakeRequest (clock i) s).2).result,
        (backoffLoop op clock retries (i + 1) (canMakeRequest (clock i) s).2).state,
        [2 ^ i * 1000] ++
          (backoffLoop op clock retries (i + 1) (canMakeRequest (clock i) s).2).waits,
        (backoffLoop op clock retries (i + 1) (canMakeRequest (clock i) s).2).invocations
          + 1⟩ := by
  rw [backoffLoop]
  simp [hi, hop, hq]

theorem backoffLoop_step_ok (op : Nat → Outcome α)
    (clock : Nat → Nat) (retries i : Nat) (s : QuotaState) (a : α)
    (hi : i < retries) (hop : op i = .ok a)
    (hq : (canMakeRequest (clock i) s).1 = true) :
    backoffLoop op clock retries i s =
      ⟨.value a, (canMakeRequest (clock i) s).2, [], 1⟩ := by
  rw [backoffLoop]
  simp [hi, hop, hq]

theorem backoffLoop_step_throw (op : Nat → Outcome α)
    (clock : Nat → Nat) (retries i : Nat) (s : QuotaState) (c : Nat)
    (hi : i < retries) (hop : op i = .err c) (hc : c ≠ 429)
    (hq : (canMakeRequest (clock i) s).1 = true) :
    backoffLoop op clock retries i s =
      ⟨.thrown c, (canMakeRequest (clock i) s).2, [], 1⟩ := by
  rw [backoffLoop]
  simp [hi, hop, hc, hq]

/-- C6: if the operation fails with a rate-limit error (code 429) on its
first two invocations and succeeds on its third, `executeWithBackoff` with
the default 3 attempts invokes it exactly 3 times, awaits exactly the
backoff delays 2^0 s = 1000 ms and 2^1 s = 2000 ms between attempts, and
returns the successful value. (The quota-headroom hypotheses rule out the
separate 60 s pacing pause, which is not a backoff wait.) -/
theorem backoff_two_rate_limits_then_success (op : Nat → Outcome α)
    (clock : Nat → Nat) (s : QuotaState) (a : α)
    (h0 : op 0 = .err 429) (h1 : op 1 = .err 429) (h2 : op 2 = .ok a)
    (hday : s.requestsPerDay + 3 < 1000000)
    (hmin : s.requestsPerMin + 3 < 250) :
    (executeWithBackoff op clock 3 s).result = .value a ∧
    (executeWithBackoff op clock 3 s).invocations = 3 ∧
    (executeWithBackoff op clock 3 s).waits = [1000, 2000] := by
  have c0 := canMakeRequest_true_of_headroom (clock 0) s
    (by omega) (by omega)
  have c1 := canMakeRequest_true_of_headroom (clock 1)
    (canMakeRequest (clock 0) s).2 (by omega) (by omega)
  have c2 := canMakeRequest_true_of_headroom (clock 2)
    (canMakeRequest (clock 1) (canMakeRequest (clock 0) s).2).2
    (by omega) (by omega)
  have e0 := backoffLoop_step_rateLimited op clock 3 0 s
    (by omega) h0 c0.1
  have e1 := backoffLoop_step_rateLimited op clock 3 1
    (canMakeRequest (clock 0) s).2 (by omega) h1 c1.1
  have e2 := backoffLoop_step_ok op clock 3 2
    (canMakeRequest (clock 1) (canMakeRequest (clock 0) s).2).2 a
    (by omega) h2 c2.1
  simp [executeWithBackoff, e0, e1, e2]

/-- Witness for C6: an operation failing twice with 429 then returning 7,
run from a fresh quota state. -/
theorem backoff_two_rate_limits_then_success_witness :
    (executeWithBackoff (fun n => if n < 2 then Outcome.err 429 else Outcome.ok 7)
        (fun _ => 0) 3 ⟨0, 0, 0⟩).result = .value 7 ∧
    (executeWithBackoff (fun n => if n < 2 then Outcome.err 429 else Outcome.ok 7)
        (fun _ => 0) 3 ⟨0, 0, 0⟩).invocations = 3 ∧
    (executeWithBackoff (fun n => if n < 2 then Outcome.err 429 else Outcome.ok 7)
        (fun _ => 0) 3 ⟨0, 0, 0⟩).waits = [1000, 2000] :=
  backoff_two_rate_limits_then_success
    (fun n => if n < 2 then Outcome.err 429 else Outcome.ok 7) (fun _ => 0)
    ⟨0, 0, 0⟩ 7 rfl rfl rfl (by decide) (by decide)

/-- C7: if the operation's first invocation fails with an error whose code
is not 429, `executeWithBackoff` invokes it exactly once, performs no
backoff wait, and re-throws that error unchanged (no further attempts).
The quota-headroom hypotheses rule out the separate 60 s pacing pause. -/
theorem backoff_other_error_propagates (op : Nat → Outcome α)
    (clock : Nat → Nat) (retries : Nat) (s : QuotaState) (c : Nat)
    (hpos : 0 < retries) (h0 : op 0 = .err c) (hc : c ≠ 429)
    (hday : s.requestsPerDay + 1 < 1000000)
    (hmin : s.requestsPerMin + 1 < 250) :
    (executeWithBackoff op clock retries s).result = .thrown c ∧
    (executeWithBackoff op clock retries s).invocations = 1 ∧
    (executeWithBackoff op clock retries s).waits = [] := by
  have c0 := canMakeRequest_true_of_headroom (clock 0) s hday hmin
  have e0 := backoffLoop_step_throw op clock retries 0 s c hpos h0 hc c0.1
  simp [executeWithBackoff, e0]

/-- Witness for C7: an operation that throws code 500 on its first call,
run from a fresh quota state with the default 3 attempts. -/
theorem backoff_other_error_propagates_witness :
    (executeWithBackoff (fun _ => (Outcome.err 500 : Outcome Nat)) (fun _ => 0)
        3 ⟨0, 0, 0⟩).result = .thrown 500 ∧
    (executeWithBackoff (fun _ => (Outcome.err 500 : Outcome Nat)) (fun _ => 0)
        3 ⟨0, 0, 0⟩).invocations = 1 ∧
    (executeWithBackoff (fun _ => (Outcome.err 500 : Outcome Nat)) (fun _ => 0)
        3 ⟨0, 0, 0⟩).waits = [] :=
  backoff_other_error_propagates (fun _ => Outcome.err 500) (fun _ => 0)
    3 ⟨0, 0, 0⟩ 500 (by decide) rfl (by decide) (by decide) (by decide)

/-- One page returned by `gmail.users.messages.list`: the message ids (the
JS `res.data.messages || []`, already defaulted to the empty list) and the
raw `nextPageToken` field, `none` when the response omits it. -/
structure Page where
  messages : List String
  nextPageToken : Option String
deriving DecidableEq

/-- JS truthiness of `nextPageToken` as tested by `while (nextPageToken)`:
an absent token and the empty string are both falsy. -/
def tokenTruthy : Option String → Bool
  | none => false
  | some s => !(s == "")

/-- Observable actions of the batch loop, in program order: a list call, a
single message archive (its full fetch plus the local file write, which the
JS awaits to completion before moving on), the one bulk-delete call of a
page, and a timed pause (ms). -/
inductive Event where
  | fetch
  | archive (msgId : String)
  | bulkDelete (ids : List String)
  | pause (ms : Nat)
deriving DecidableEq

/-- The final report of a run: `batchCount` and `totalDeleted`. -/
structure RunSummary where
  batchCount : Nat
  totalDeleted : Nat
deriving DecidableEq

/-- Events of one loop iteration of `deleteOldEmails` for fetched page `p`:
the list call itself, then — only when the page has messages — the
sequential archive calls in page order (skipped in delete-only mode), the
single bulk-delete of all the page's ids, and the 20 000 ms inter-batch
pause. -/
def pageEvents (deleteOnly : Bool) (p : Page) : List Event :=
  Event.fetch ::
    (if p.messages.isEmpty then []
     else
       (if deleteOnly then [] else p.messages.map Event.archive) ++
         [Event.bulkDelete p.messages, Event.pause 20000])

/-- The `do … while (nextPageToken)` loop of `deleteOldEmails`, with
`provider n` the page answered by the (n+1)-st list call (remote calls
modelled on their success path). Returns the events in order and, when the
loop exits within `fuel` iterations, the final totals; `none` means the
given fuel was not enough to observe termination. -/
def deleteLoop (provider : Nat → Page) (deleteOnly : Bool) :
    Nat → Nat → Nat → Nat → List Event × Option RunSummary
  | 0, _, _, _ => ([], none)
  | fuel + 1, idx, totalDeleted, batchCount =>
    let p := provider idx
    let evs := pageEvents deleteOnly p
    let totalDeleted' :=
      if p.messages.isEmpty then totalDeleted
      else totalDeleted + p.messages.length
    let batchCount' :=
      if p.messages.isEmpty then batchCount else batchCount + 1
    if tokenTruthy p.nextPageToken then
      let rest := deleteLoop provider deleteOnly fuel (idx + 1) totalDeleted' batchCount'
      (evs ++ rest.1, rest.2)
    else (evs, some ⟨batchCount', totalDeleted'⟩)

/-- Embedding of `deleteOldEmails`: run the batch loop from the first page
with zeroed totals. -/
def deleteOldEmails (provider : Nat → Page) (deleteOnly : Bool)
    (fuel : Nat) : List Event × Option RunSummary :=
  deleteLoop provider deleteOnly fuel 0 0 0

theorem deleteLoop_cons (provider : Nat → Page) (deleteOnly : Bool)
    (fuel idx t b : Nat) :
    deleteLoop provider deleteOnly (fuel + 1) idx t b =
      if tokenTruthy (provider idx).nextPageToken then
        (pageEvents deleteOnly (provider idx) ++
          (deleteLoop provider deleteOnly fuel (idx + 1)
            (if (provider idx).messages.isEmpty then t
             else t + (provider idx).messages.length)
            (if (provider idx).messages.isEmpty then b else b + 1)).1,
          (deleteLoop provider deleteOnly fuel (idx + 1)
            (if (provider idx).messages.isEmpty then t
             else t + (provider idx).messages.length)
            (if (provider idx).messages.isEmpty then b else b + 1)).2)
      else
        (pageEvents deleteOnly (provider idx),
          some ⟨if (provider idx).messages.isEmpty then b else b + 1,
            if (provider idx).messages.isEmpty then t
            else t + (provider idx).messages.length⟩) := rfl

theorem deleteLoop_some_implies_falsy (provider : Nat → Page)
    (deleteOnly : Bool) :
    ∀ fuel idx t b, (deleteLoop provider deleteOnly fuel idx t b).2.isSome = true →
      ∃ n, tokenTruthy (provider n).nextPageToken = false := by
  intro fuel
  induction fuel with
  | zero => intro idx t b h; simp [deleteLoop] at h
  | succ fuel ih =>
    intro idx t b h
    by_cases ht : tokenTruthy (provider idx).nextPageToken
    · simp only [deleteLoop, ht, if_true] at h
      exact ih (idx + 1) _ _ h
    · exact ⟨idx, by simpa using ht⟩

theorem deleteLoop_terminates_of_falsy (provider : Nat → Page)
    (deleteOnly : Bool) :
    ∀ k idx t b, tokenTruthy (provider (idx + k)).nextPageToken = false →
      (deleteLoop provider deleteOnly (k + 1) idx t b).2.isSome = true := by
  intro k
  induction k with
  | zero =>
    intro idx t b h
    simp only [Nat.add_zero] at h
    simp [deleteLoop, h]
  | succ k ih =>
    intro idx t b h
    by_cases ht : tokenTruthy (provider idx).nextPageToken
    · simp only [deleteLoop, ht, if_true]
      exact ih (idx + 1) _ _ (by rw [Nat.add_right_comm]; exact h)
    · simp [deleteLoop, ht]

theorem deleteLoop_batches (provider : Nat → Page) (deleteOnly : Bool) :
    ∀ N idx t b,
      (∀ i < N, (provider (idx + i)).messages ≠ [] ∧
        tokenTruthy (provider (idx + i)).nextPageToken = true) →
      (provider (idx + N)).messages = [] →
      (provider (idx + N)).nextPageToken = none →
      (deleteLoop provider deleteOnly (N + 1) idx t b).2 =
        some ⟨b + N,
          t + (((List.range N).map
            (fun i => (provider (idx + i)).messages.length)).sum)⟩ := by
  intro N
  induction N with
  | zero =>
    intro idx t b _ hm htok
    simp only [Nat.add_zero] at hm htok
    simp [deleteLoop, hm, htok, tokenTruthy]
  | succ N ih =>
    intro idx t b hall hm htok
    have h0 := hall 0 (by omega)
    simp only [Nat.add_zero] at h0
    have hne : ¬ (provider idx).messages.isEmpty := by
      simpa [List.isEmpty_iff] using h0.1
    rw [deleteLoop_cons]
    simp only [h0.2, if_true, hne, Bool.false_eq_true, if_false]
    have hrec := ih (idx + 1) (t + (provider idx).messages.length) (b + 1)
      (fun i hi => by
        have h2 := hall (i + 1) (by omega)
        have e : idx + (i + 1) = idx + 1 + i := by omega
        rwa [e] at h2)
      (by
        have e : idx + (N + 1) = idx + 1 + N := by omega
        rwa [e] at hm)
      (by
        have e : idx + (N + 1) = idx + 1 + N := by omega
        rwa [e] at htok)
    rw [hrec]
    have hsum : ((List.range (N + 1)).map
        (fun i => (provider (idx + i)).messages.length)).sum =
        (provider idx).messages.length +
          (((List.range N).map
            (fun i => (provider (idx + 1 + i)).messages.length)).sum) := by
      rw [List.range_succ_eq_map]
      simp only [List.map_cons, List.map_map, Nat.add_zero, List.sum_cons]
      congr 2
      apply List.map_congr_left
      intro i _
      simp only [Function.comp]
      have e : idx + Nat.succ i = idx + 1 + i := by omega
      rw [e]
    rw [hsum]
    simp only [Option.some.injEq, RunSummary.mk.injEq]
    constructor <;> omega

/-- The claim that the batch loop terminates exactly when some page
response omits `nextPageToken`, stated over an arbitrary page provider. -/
def TerminatesIffOmitsToken (provider : Nat → Page) (deleteOnly : Bool) : Prop :=
  (∃ fuel, (deleteOldEmails provider deleteOnly fuel).2.isSome = true) ↔
  (∃ n, (provider n).nextPageToken = none)

/-- C2 counterexample: a provider whose every response carries the token
`""` — present, never omitted. JS string truthiness makes
`while (nextPageToken)` exit on it, so the loop terminates after one batch
although no response ever omits the token, refuting the stated "only if". -/
theorem terminates_without_omitted_token :
    ¬ TerminatesIffOmitsToken (fun _ => Page.mk [] (some "")) false := by
  intro h
  obtain ⟨n, hn⟩ := h.1 ⟨1, by decide⟩
  simp at hn

/-- C2 amended: the loop terminates iff some page response eventually has a
falsy `nextPageToken` (absent, or the empty string, which JS truthiness
also treats as terminal); and for a provider answering N non-empty pages
with (truthy) tokens followed by a message-free response with no token, the
run processes exactly N batches and the totals are the sum of the page
sizes. -/
theorem loop_termination_and_batches (provider : Nat → Page)
    (deleteOnly : Bool) :
    ((∃ fuel, (deleteOldEmails provider deleteOnly fuel).2.isSome = true) ↔
      (∃ n, tokenTruthy (provider n).nextPageToken = false)) ∧
    (∀ N,
      (∀ i < N, (provider i).messages ≠ [] ∧
        tokenTruthy (provider i).nextPageToken = true) →
      (provider N).messages = [] →
      (provider N).nextPageToken = none →
      (deleteOldEmails provider deleteOnly (N + 1)).2 =
        some ⟨N, ((List.range N).map
          (fun i => (provider i).messages.length)).sum⟩) := by
  constructor
  · constructor
    · rintro ⟨fuel, hf⟩
      exact deleteLoop_some_implies_falsy provider deleteOnly fuel 0 0 0 hf
    · rintro ⟨n, hn⟩
      exact ⟨n + 1,
        deleteLoop_terminates_of_falsy provider deleteOnly n 0 0 0
          (by simpa using hn)⟩
  · intro N hall hm htok
    have := deleteLoop_batches provider deleteOnly N 0 0 0
      (fun i hi => by simpa using hall i hi)
      (by simpa using hm) (by simpa using htok)
    simpa [deleteOldEmails] using this

/-- Witness for C2 amended: two pages of sizes 2 and 1 with tokens, then an
empty tokenless response — the run terminates and reports 2 batches and 3
messages. -/
theorem loop_termination_and_batches_witness :
    (deleteOldEmails
      (fun n => if n = 0 then Page.mk ["a", "b"] (some "t")
        else if n = 1 then Page.mk ["c"] (some "u")
        else Page.mk [] none) false (2 + 1)).2 = some ⟨2, 3⟩ := by
  have h := (loop_termination_and_batches
    (fun n => if n = 0 then Page.mk ["a", "b"] (some "t")
      else if n = 1 then Page.mk ["c"] (some "u")
      else Page.mk [] none) false).2 2
    (by
      intro i hi
      interval_cases i <;> constructor <;> decide)
    (by decide) (by decide)
  rw [h]
  decide

/-- Provider for the C1 counterexample: the first response has zero
messages but carries a continuation token; the second response ends the
run. -/
def emptyPageProvider : Nat → Page :=
  fun n => if n = 0 then ⟨[], some "t"⟩ else ⟨[], none⟩

/-- C1 counterexample: on a zero-message page that carries a continuation
token, the code indeed issues no archive and no bulk-delete call, but ALSO
no 20 s pause — `delay(20000)` sits inside `if (messages.length > 0)`, so
the trace of this two-page run is just the two fetches, with no pause
between them, refuting the claimed unconditional inter-batch pacing. -/
theorem empty_page_skips_pause :
    (emptyPageProvider 0).messages = [] ∧
    tokenTruthy (emptyPageProvider 0).nextPageToken = true ∧
    (deleteOldEmails emptyPageProvider false 2).1 =
      [Event.fetch, Event.fetch] ∧
    Event.pause 20000 ∉ (deleteOldEmails emptyPageProvider false 2).1 := by
  refine ⟨rfl, rfl, rfl, ?_⟩
  decide

theorem pageEvents_count_pause (deleteOnly : Bool) (p : Page) :
    (pageEvents deleteOnly p).count (Event.pause 20000) =
      if p.messages.isEmpty then 0 else 1 := by
  by_cases he : p.messages.isEmpty
  · simp [pageEvents, he]
  · have hnm : Event.pause 20000 ∉ p.messages.map Event.archive := by
      simp
    by_cases hd : deleteOnly <;>
      simp [pageEvents, he, hd, List.count_cons, List.count_append,
        List.count_eq_zero.2 hnm, List.count_singleton]

theorem deleteLoop_pause_count (provider : Nat → Page) (deleteOnly : Bool) :
    ∀ fuel idx t b tr sm,
      deleteLoop provider deleteOnly fuel idx t b = (tr, some sm) →
      tr.count (Event.pause 20000) + b = sm.batchCount := by
  intro fuel
  induction fuel with
  | zero => intro idx t b tr sm h; simp [deleteLoop] at h
  | succ fuel ih =>
    intro idx t b tr sm h
    rw [deleteLoop_cons] at h
    by_cases ht : tokenTruthy (provider idx).nextPageToken
    · simp only [ht, if_true, Prod.mk.injEq] at h
      obtain ⟨htr, hsm⟩ := h
      have hrec := ih (idx + 1)
        (if (provider idx).messages.isEmpty then t
         else t + (provider idx).messages.length)
        (if (provider idx).messages.isEmpty then b else b + 1)
        (deleteLoop provider deleteOnly fuel (idx + 1)
          (if (provider idx).messages.isEmpty then t
           else t + (provider idx).messages.length)
          (if (provider idx).messages.isEmpty then b else b + 1)).1
        sm (by rw [← hsm])
      rw [← htr, List.count_append, pageEvents_count_pause]
      by_cases he : (provider idx).messages.isEmpty <;>
        simp only [he, Bool.false_eq_true, if_true, if_false] at hrec ⊢ <;> omega
    · simp only [ht, if_false, Bool.false_eq_true, Prod.mk.injEq] at h
      obtain ⟨htr, hsm⟩ := h
      have hb := congrArg RunSummary.batchCount (Option.some.inj hsm)
      simp only [] at hb
      rw [← htr, pageEvents_count_pause]
      by_cases he : (provider idx).messages.isEmpty <;>
        simp only [he, Bool.false_eq_true, if_true, if_false] at hb ⊢ <;>
        omega

/-- C1 amended: for every fetched page with zero messages, the iteration
issues no archive call, no bulk-delete call, and ALSO no cooldown pause —
its only event is the list call; across any terminating run, the 20 s
pause occurs exactly once per non-empty batch (the pause count equals the
reported batch count). -/
theorem empty_page_no_action_no_pause :
    (∀ (deleteOnly : Bool) (p : Page), p.messages = [] →
      pageEvents deleteOnly p = [Event.fetch]) ∧
    (∀ (provider : Nat → Page) (deleteOnly : Bool) (fuel : Nat)
        (tr : List Event) (sm : RunSummary),
      deleteOldEmails provider deleteOnly fuel = (tr, some sm) →
      tr.count (Event.pause 20000) = sm.batchCount) := by
  constructor
  · intro deleteOnly p hp
    simp [pageEvents, hp]
  · intro provider deleteOnly fuel tr sm h
    have := deleteLoop_pause_count provider deleteOnly fuel 0 0 0 tr sm h
    omega

/-- Witness for C1 amended: the empty first page of the counterexample
provider contributes only its fetch event, and the two-page run reports 0
batches with 0 pauses in its trace. -/
theorem empty_page_no_action_no_pause_witness :
    pageEvents false (Page.mk [] (some "t")) = [Event.fetch] ∧
    (List.count (Event.pause 20000)
      (deleteOldEmails emptyPageProvider false 2).1) =
      (RunSummary.mk 0 0).batchCount :=
  ⟨empty_page_no_action_no_pause.1 false (Page.mk [] (some "t")) rfl,
   empty_page_no_action_no_pause.2 emptyPageProvider false 2
     (deleteOldEmails emptyPageProvider false 2).1 (RunSummary.mk 0 0)
     (by decide)⟩

/-- A trace orders archives before deletes when, for every occurrence of a
bulk-delete event, every id it contains was archived at a strictly earlier
position of the trace. -/
def archivesPrecedeDeletes (tr : List Event) : Prop :=
  ∀ (k : Nat) (ids : List String),
    tr[k]? = some (Event.bulkDelete ids) →
    ∀ m ∈ ids, ∃ j, j < k ∧ tr[j]? = some (Event.archive m)

/-- The archived message ids of a trace, in order. -/
def archivedIds (tr : List Event) : List String :=
  tr.filterMap (fun e =>
    match e with
    | .archive m => some m
    | _ => none)

/-- The bulk-deleted message ids of a trace, concatenated in order. -/
def deletedIds (tr : List Event) : List String :=
  tr.flatMap (fun e =>
    match e with
    | .bulkDelete ids => ids
    | _ => [])

theorem archivedIds_append (A B : List Event) :
    archivedIds (A ++ B) = archivedIds A ++ archivedIds B := by
  unfold archivedIds
  exact List.filterMap_append A B _

theorem deletedIds_append (A B : List Event) :
    deletedIds (A ++ B) = deletedIds A ++ deletedIds B := by
  unfold deletedIds
  exact List.flatMap_append A B _

theorem archivedIds_map_archive (l : List String) :
    archivedIds (l.map Event.archive) = l := by
  induction l with
  | nil => rfl
  | cons m l ih =>
    simp only [List.map_cons]
    show m :: archivedIds (l.map Event.archive) = m :: l
    rw [ih]

theorem deletedIds_map_archive (l : List String) :
    deletedIds (l.map Event.archive) = [] := by
  induction l with
  | nil => rfl
  | cons m l ih =>
    simp only [List.map_cons]
    show deletedIds (l.map Event.archive) = []
    exact ih

theorem archivesPrecedeDeletes_append {A B : List Event}
    (hA : archivesPrecedeDeletes A) (hB : archivesPrecedeDeletes B) :
    archivesPrecedeDeletes (A ++ B) := by
  intro k ids hk m hm
  by_cases h : k < A.length
  · rw [List.getElem?_append_left h] at hk
    obtain ⟨j, hj, hje⟩ := hA k ids hk m hm
    exact ⟨j, hj, by rw [List.getElem?_append_left (by omega)]; exact hje⟩
  · push_neg at h
    rw [List.getElem?_append_right h] at hk
    obtain ⟨j, hj, hje⟩ := hB (k - A.length) ids hk m hm
    refine ⟨A.length + j, by omega, ?_⟩
    rw [List.getElem?_append_right (by omega)]
    have e : A.length + j - A.length = j := by omega
    rw [e]
    exact hje

theorem pageEvents_archivesPrecedeDeletes (p : Page) :
    archivesPrecedeDeletes (pageEvents false p) := by
  intro k ids hk m hm
  by_cases he : p.messages.isEmpty
  · simp only [pageEvents, he, if_true] at hk
    rcases k with _ | k <;> simp at hk
  · simp only [pageEvents, he, Bool.false_eq_true, if_false] at hk ⊢
    rcases k with _ | k
    · simp at hk
    · rw [List.getElem?_cons_succ] at hk
      by_cases hlt : k < (p.messages.map Event.archive).length
      · rw [List.getElem?_append_left hlt] at hk
        simp at hk
      · push_neg at hlt
        rw [List.getElem?_append_right hlt] at hk
        have hids : ids = p.messages ∧
            k = (p.messages.map Event.archive).length := by
          rcases hd : k - (p.messages.map Event.archive).length with _ | d
          · rw [hd] at hk
            simp at hk
            exact ⟨hk.symm, by omega⟩
          · rw [hd] at hk
            rcases d with _ | d <;> simp at hk
        obtain ⟨hids, hkk⟩ := hids
        subst hids
        obtain ⟨i, hie⟩ := List.getElem?_of_mem hm
        have hilt : i < p.messages.length :=
          (List.getElem?_eq_some_iff.1 hie).1
        refine ⟨i + 1, by simp at hkk ⊢; omega, ?_⟩
        rw [List.getElem?_cons_succ,
          List.getElem?_append_left (by simpa using hilt)]
        simp [hie]

theorem deleteLoop_archivesPrecedeDeletes (provider : Nat → Page) :
    ∀ fuel idx t b,
      archivesPrecedeDeletes (deleteLoop provider false fuel idx t b).1 := by
  intro fuel
  induction fuel with
  | zero =>
    intro idx t b k ids hk m hm
    simp [deleteLoop] at hk
  | succ fuel ih =>
    intro idx t b
    rw [deleteLoop_cons]
    by_cases ht : tokenTruthy (provider idx).nextPageToken
    · simp only [ht, if_true]
      exact archivesPrecedeDeletes_append
        (pageEvents_archivesPrecedeDeletes _) (ih (idx + 1) _ _)
    · simp only [ht, Bool.false_eq_true, if_false]
      exact pageEvents_archivesPrecedeDeletes _

theorem pageEvents_archived_eq_deleted (p : Page) :
    archivedIds (pageEvents false p) = deletedIds (pageEvents false p) := by
  by_cases he : p.messages.isEmpty
  · simp only [pageEvents, he, if_true]
    rfl
  · simp only [pageEvents, he, Bool.false_eq_true, if_false]
    show archivedIds (p.messages.map Event.archive ++
        [Event.bulkDelete p.messages, Event.pause 20000]) =
      deletedIds (p.messages.map Event.archive ++
        [Event.bulkDelete p.messages, Event.pause 20000])
    rw [archivedIds_append, deletedIds_append, archivedIds_map_archive,
      deletedIds_map_archive]
    show p.messages ++ [] = [] ++ (p.messages ++ [])
    simp

theorem deleteLoop_archived_eq_deleted (provider : Nat → Page) :
    ∀ fuel idx t b,
      archivedIds (deleteLoop provider false fuel idx t b).1 =
        deletedIds (deleteLoop provider false fuel idx t b).1 := by
  intro fuel
  induction fuel with
  | zero => intro idx t b; rfl
  | succ fuel ih =>
    intro idx t b
    rw [deleteLoop_cons]
    by_cases ht : tokenTruthy (provider idx).nextPageToken
    · simp only [ht, if_true]
      rw [archivedIds_append, deletedIds_append,
        pageEvents_archived_eq_deleted, ih (idx + 1)]
    · simp only [ht, Bool.false_eq_true, if_false]
      exact pageEvents_archived_eq_deleted _

/-- C3: in every archiving-enabled run, each bulk-delete occurrence in the
event trace is preceded by an archive of every id it contains (the archive
event stands for the awaited full fetch plus local write of
`archiveEmail`); moreover the sequence of archived ids equals, in order,
the concatenation of the bulk-deleted id lists — the archives of a page are
sequential, one per message, in page order, and exactly cover the ids that
the page's single bulk-delete call carries. -/
theorem archive_before_delete (provider : Nat → Page) (fuel : Nat) :
    archivesPrecedeDeletes (deleteOldEmails provider false fuel).1 ∧
    archivedIds (deleteOldEmails provider false fuel).1 =
      deletedIds (deleteOldEmails provider false fuel).1 :=
  ⟨deleteLoop_archivesPrecedeDeletes provider fuel 0 0 0,
    deleteLoop_archived_eq_deleted provider fuel 0 0 0⟩

/-- Provider for the C3 witness: a single page of two messages. -/
def twoMessageProvider : Nat → Page := fun _ => ⟨["a", "b"], none⟩

/-- Witness for C3: in the one-page run over messages `a`, `b`, the
bulk-delete at trace position 3 is preceded by an archive of `a`, and the
archived ids coincide with the deleted ids. -/
theorem archive_before_delete_witness :
    (∃ j, j < 3 ∧
      ((deleteOldEmails twoMessageProvider false 1).1)[j]? =
        some (Event.archive "a")) ∧
    archivedIds (deleteOldEmails twoMessageProvider false 1).1 =
      deletedIds (deleteOldEmails twoMessageProvider false 1).1 :=
  ⟨(archive_before_delete twoMessageProvider 1).1 3 ["a", "b"] (by decide)
      "a" (by decide),
    (archive_before_delete twoMessageProvider 1).2⟩
